import Mathlib

/-!
Verification development for the navigator_flex tariff engine.

The definitions below are a shallow embedding of the repository's core
logic:
* `tariff_processor.py` — `TariffProcessor._check_conditions`,
  `TariffProcessor._is_code_applicable`,
  `TariffProcessor._process_other_tariffs`, `TariffProcessor.analyze_tariffs`;
* `report_builder.py` — `ReportBuilder.generate_report_data` and its
  `_build_*` helpers;
* `route.py` — `extract_values`, `get_data`, `calculate_total_tariff`.

Python `date` objects are embedded as `Int` (an ordinal day); only their
ordering is ever used.  Python floats are embedded as `ℚ`: every numeric
literal flowing through the aggregator is a short decimal string, so exact
rational arithmetic mirrors the additive combinations performed by the
code.  A JSON field that may be absent is embedded as an `Option`; a date
field that may be absent or unparsable is embedded as `DateField`, whose
`missing`/`malformed` constructors correspond to the `KeyError` and
`ValueError` paths that the Python code catches.  Console warnings
(`print(...)` diagnostics) are made observable by returning them as a
`List String` alongside the boolean results.
-/

set_option linter.unusedVariables false

/-- Result of reading and parsing a date field of a JSON record:
the key can be missing (Python `KeyError`), present but unparsable
(Python `ValueError` from `datetime.fromisoformat`), or parse to a date. -/
inductive DateField where
  | missing
  | malformed
  | parsed (d : Int)
deriving DecidableEq, Repr

/-- The date a `DateField` yields, if any. -/
def DateField.toDate : DateField → Option Int
  | .parsed d => some d
  | _ => none

/-- One entry of a record's `applicabilityConditions`, as read by
`_check_conditions`: `fieldKey`, `__typename`, `fieldShouldEqual` are
optional JSON fields; the three bound fields are date fields. -/
structure Condition where
  fieldKey : Option String
  typename : Option String
  fieldShouldEqual : Option String
  threshold : DateField
  lowerBound : DateField
  upperBound : DateField
deriving DecidableEq, Repr

/-- One entry of the primary record's `specialRates` list, flattened to the
fields the code reads: `importProgram.programName`, `spi`,
`rateDescription`, and the `usCustomsCountryCode`s of
`importProgram.countriesOfOrigin`. -/
structure SpecialRate where
  programName : String
  spi : String
  rateDescription : String
  importProgramCountries : List String
deriving DecidableEq, Repr

/-- One tariff record from the fetched snapshot, flattened to the fields the
code reads: `type`, `codeVariant.code`, `label`, `fullDescription`,
`rateDescription`, `rateInfo.penaltyRate` (already parsed to a rational;
`none` models a missing key or empty string, which
`float(... or 0)` turns into `0`), the two effective dates, the
`usCustomsCountryCode`s of `countriesOfOrigin`, the applicability
conditions, the `code` fields of `excludedByCodes` (each itself optional,
mirroring `excluded_by.get('code')`), `priority`, `requiresUserChoice`,
and `specialRates`. -/
structure TRecord where
  type : Option String
  code : String
  label : String
  fullDescription : String
  rateDescription : String
  penaltyRate : Option ℚ
  effectiveFrom : DateField
  effectiveTo : DateField
  countriesOfOrigin : List String
  applicabilityConditions : List Condition
  excludedByCodes : List (Option String)
  priority : Option Int
  requiresUserChoice : Bool
  specialRates : List SpecialRate
deriving DecidableEq, Repr

/-- The effective-window test of `_is_code_applicable`
(line `if not (from_date <= entry_date <= to_date)`). -/
def effectiveWindowOk (fromDate toDate entryDate : Int) : Bool :=
  decide (fromDate ≤ entryDate ∧ entryDate ≤ toDate)

/-- The country-of-origin test of `_is_code_applicable`
(`if countries and not any(c['usCustomsCountryCode'] == country ...)`):
an empty list is unrestricted, otherwise the country must occur. -/
def countryCheck (countries : List String) (country : String) : Bool :=
  countries.isEmpty || countries.contains country

/-- Diagnostic emitted by `_check_conditions` when a date condition cannot
be parsed. -/
def condWarning (condition : Condition) : String :=
  "Warning: Could not parse date condition"

/-- One iteration of the loop body of `_check_conditions`: decides whether a
single condition passes, together with any warning printed.  The branch
structure mirrors the Python `if`/`elif` chain; the `KeyError`/`ValueError`
handler around the date comparisons corresponds to the `DateField.toDate =
none` cases. -/
def checkCondition (condition : Condition) (transport : String)
    (loadingDate : Option Int) : Bool × List String :=
  if condition.fieldKey = some "MODE_OF_TRANSPORT" ∧ transport ≠ "ANY" then
    if condition.fieldShouldEqual ≠ some transport then (false, []) else (true, [])
  else if condition.fieldKey = some "DATE_OF_LOADING" then
    match loadingDate with
    | none => (false, [])
    | some ld =>
      if condition.typename = some "CustomsTariffLess" then
        match condition.threshold.toDate with
        | none => (false, [condWarning condition])
        | some threshold => if ¬ (ld < threshold) then (false, []) else (true, [])
      else if condition.typename = some "CustomsTariffGreater" then
        match condition.threshold.toDate with
        | none => (false, [condWarning condition])
        | some threshold => if ¬ (threshold < ld) then (false, []) else (true, [])
      else if condition.typename = some "CustomsTariffBetween" then
        match condition.lowerBound.toDate, condition.upperBound.toDate with
        | some lower, some upper =>
          if ¬ (lower ≤ ld ∧ ld < upper) then (false, []) else (true, [])
        | _, _ => (false, [condWarning condition])
      else (true, [])
  else (true, [])

/-- `TariffProcessor._check_conditions`: every condition must pass; the loop
returns `False` at the first failing condition.  The second component
collects the warnings printed along the way. -/
def checkConditions : List Condition → String → Option Int → Bool × List String
  | [], _, _ => (true, [])
  | condition :: rest, transport, loadingDate =>
    let r := checkCondition condition transport loadingDate
    if r.1 then
      let r2 := checkConditions rest transport loadingDate
      (r2.1, r.2 ++ r2.2)
    else (false, r.2)

/-- Diagnostic emitted by `_is_code_applicable` when the effective dates of
a record are missing or unparsable. -/
def parseApplicabilityWarning (code : TRecord) : String :=
  "Warning: Could not parse applicability for code " ++ code.code

/-- `TariffProcessor._is_code_applicable`: effective window, then country of
origin, then applicability conditions; the `except (KeyError, ValueError)`
branch that catches missing/malformed effective dates is the final match
arm, which fails closed with a warning. -/
def isCodeApplicable (code : TRecord) (country transport : String)
    (entryDate : Int) (loadingDate : Option Int) : Bool × List String :=
  match code.effectiveFrom.toDate, code.effectiveTo.toDate with
  | some fromDate, some toDate =>
    if !(effectiveWindowOk fromDate toDate entryDate) then (false, [])
    else if !(countryCheck code.countriesOfOrigin country) then (false, [])
    else
      let res := checkConditions code.applicabilityConditions transport loadingDate
      if !res.1 then (false, res.2) else (true, res.2)
  | _, _ => (false, [parseApplicabilityWarning code])

/-- The value `float(c['rateInfo'].get('penaltyRate') or 0)` used to split
penalties from exclusions in `_process_other_tariffs`. -/
def penaltyVal (r : TRecord) : ℚ :=
  r.penaltyRate.getD 0

/-- The `penalties` list of `_process_other_tariffs`: records whose penalty
rate is strictly positive. -/
def penaltiesOf (tariffs : List TRecord) : List TRecord :=
  tariffs.filter (fun c => decide (0 < penaltyVal c))

/-- The `exclusions` list of `_process_other_tariffs`: records whose penalty
rate is zero (or absent). -/
def exclusionsOf (tariffs : List TRecord) : List TRecord :=
  tariffs.filter (fun c => decide (penaltyVal c = 0))

/-- The `exclusion_code_set` of `_process_other_tariffs` (only membership in
it is ever used, so a list of codes is a faithful model of the Python set). -/
def exclusionCodesOf (tariffs : List TRecord) : List String :=
  (exclusionsOf tariffs).map (fun e => e.code)

/-- The value stored under one key of the `excluded_penalties` dict:
`{"penalty": ..., "exclusions": [...]}`. -/
structure Entry where
  penalty : TRecord
  exclusions : List TRecord
deriving DecidableEq, Repr

/-- Insertion into a Python dict, modelled on an association list: assigning
to an existing key replaces its value in place, assigning to a fresh key
appends the pair. -/
def dictInsert {V : Type} (k : String) (v : V) : List (String × V) → List (String × V)
  | [] => [(k, v)]
  | (k', v') :: rest => if k' = k then (k, v) :: rest else (k', v') :: dictInsert k v rest

/-- Lookup in a Python dict modelled as an association list. -/
def dictLookup {V : Type} (k : String) : List (String × V) → Option V
  | [] => none
  | (k', v') :: rest => if k' = k then some v' else dictLookup k rest

/-- The inner loop of `_process_other_tariffs` over one penalty's
`excludedByCodes`: accumulates `is_excluded`, `matching_exclusions`, and the
codes added to `used_exclusion_codes`. -/
def procExcludedBy (exclusions : List TRecord) (exclusionCodes : List String)
    (penalty : TRecord) : Bool × List TRecord × List String :=
  penalty.excludedByCodes.foldl
    (fun acc excludedBy =>
      match excludedBy with
      | some exCode =>
        if exclusionCodes.contains exCode then
          (true, acc.2.1 ++ exclusions.filter (fun e => decide (e.code = exCode)),
           acc.2.2 ++ [exCode])
        else acc
      | none => acc)
    (false, [], [])

/-- State threaded through the outer loop of `_process_other_tariffs`:
`final_penalties`, the `excluded_penalties` dict, and
`used_exclusion_codes`. -/
structure ProcState where
  finals : List TRecord
  excluded : List (String × Entry)
  used : List String
deriving DecidableEq, Repr

/-- One iteration of the outer loop of `_process_other_tariffs` over a
penalty record. -/
def procStep (exclusions : List TRecord) (exclusionCodes : List String)
    (st : ProcState) (penalty : TRecord) : ProcState :=
  let r := procExcludedBy exclusions exclusionCodes penalty
  let st1 : ProcState := { st with used := st.used ++ r.2.2 }
  if r.1 then
    { st1 with excluded := dictInsert penalty.code ⟨penalty, r.2.1⟩ st1.excluded }
  else
    { st1 with finals := st1.finals ++ [penalty] }

/-- The dictionary returned by `_process_other_tariffs`. -/
structure ProcResult where
  applicablePenalties : List TRecord
  excludedPenalties : List (String × Entry)
  neutralExclusions : List TRecord
deriving DecidableEq, Repr

/-- `TariffProcessor._process_other_tariffs`. -/
def processOtherTariffs (tariffs : List TRecord) : ProcResult :=
  let penalties := penaltiesOf tariffs
  let exclusions := exclusionsOf tariffs
  let exclusionCodes := exclusionCodesOf tariffs
  let st := penalties.foldl (procStep exclusions exclusionCodes) ⟨[], [], []⟩
  { applicablePenalties := st.finals
    excludedPenalties := st.excluded
    neutralExclusions := exclusions.filter (fun e => !(st.used.contains e.code)) }

/-- `x.get('priority', 99)`, the sort key of `analyze_tariffs`. -/
def priorityOf (r : TRecord) : Int :=
  r.priority.getD 99

/-- Stable insertion of a record into a priority-sorted list: the new record
goes after every earlier record of smaller-or-equal priority. -/
def insertByPriority (x : TRecord) : List TRecord → List TRecord
  | [] => [x]
  | y :: ys =>
    if priorityOf x < priorityOf y then x :: y :: ys else y :: insertByPriority x ys

/-- The stable ascending sort `other_tariffs.sort(key=lambda x:
x.get('priority', 99))` of `analyze_tariffs` (Python's `list.sort` is
stable; this insertion sort has the same graph). -/
def sortByPriority : List TRecord → List TRecord
  | [] => []
  | x :: xs => insertByPriority x (sortByPriority xs)

/-- The payload of a successful `analyze_tariffs` run. -/
structure Analysis where
  primary : TRecord
  special_programs : List SpecialRate
  applicable_penalties : List TRecord
  excluded_penalties : List (String × Entry)
  neutral_exclusions : List TRecord
deriving DecidableEq, Repr

/-- The return value of `analyze_tariffs`: either the `{"error": ...}`
dictionary or the structured analysis. -/
inductive AnalysisResult where
  | error (msg : String)
  | ok (analysis : Analysis)
deriving DecidableEq, Repr

/-- `TariffProcessor.analyze_tariffs`. -/
def analyzeTariffs (rawData : List TRecord) (country transport : String)
    (entryDate : Int) (loadingDate : Option Int) : AnalysisResult :=
  match rawData.find? (fun c => decide (c.type = some "COMMODITY_CODE")) with
  | none => .error "No primary COMMODITY_CODE found."
  | some primaryCode =>
    let specialPrograms := primaryCode.specialRates.filter
      (fun rate => rate.importProgramCountries.contains country)
    let otherTariffs := rawData.filter (fun code =>
      decide (code.type ≠ some "COMMODITY_CODE") &&
        (isCodeApplicable code country transport entryDate loadingDate).1)
    let sorted := sortByPriority otherTariffs
    let processed := processOtherTariffs sorted
    .ok { primary := primaryCode
          special_programs := specialPrograms
          applicable_penalties := processed.applicablePenalties
          excluded_penalties := processed.excludedPenalties
          neutral_exclusions := processed.neutralExclusions }

/-- The `primary_info` dictionary built by
`ReportBuilder._build_primary_info`. -/
structure PrimaryInfoReport where
  hts_code : String
  description : String
  column_1_rate : String
  column_2_rate : String
  column_2_note : String
deriving DecidableEq, Repr

/-- `ReportBuilder._build_primary_info` on a present primary record (the
route calls it only after `analyze_tariffs` succeeded). -/
def buildPrimaryInfo (primary : TRecord) : PrimaryInfoReport :=
  { hts_code := primary.code
    description := primary.fullDescription
    column_1_rate := primary.rateDescription
    column_2_rate := "15% (Rate applies to Cuba & North Korea)"
    column_2_note := "Column 2 rate is not in the Flexport API file, it was retrieved from USITC data." }

/-- One element of `applicable_programs` in the report. -/
structure ProgramEntry where
  program_name : String
  spi : String
  rate : String
deriving DecidableEq, Repr

/-- The `special_programs` dictionary of the report. -/
structure SpecialProgramsReport where
  country : String
  message : Option String
  applicable_programs : List ProgramEntry
deriving DecidableEq, Repr

/-- `ReportBuilder._build_special_programs`. -/
def buildSpecialPrograms (programs : List SpecialRate) (country : String) :
    SpecialProgramsReport :=
  match programs with
  | [] =>
    { country := country
      message := some "No special trade programs (e.g., GSP, FTAs) found for this country."
      applicable_programs := [] }
  | _ =>
    { country := country
      message := none
      applicable_programs := programs.map (fun prog =>
        { program_name := prog.programName, spi := prog.spi, rate := prog.rateDescription }) }

/-- One element of `active_penalties` in the report. -/
structure ActivePenaltyReport where
  label : String
  code : String
  rate : String
deriving DecidableEq, Repr

/-- One element of a `potential_exclusions` list in the report. -/
structure PotentialExclusionReport where
  label : String
  code : String
  rate : String
  requires_choice : Bool
deriving DecidableEq, Repr

/-- One element of `excluded_penalties` in the report.  Note the exact key
set built by `_build_other_tariffs`: `penalty_label`, `penalty_code`,
`penalty_rate`, `potential_exclusions` — and nothing else. -/
structure ExcludedPenaltyReport where
  penalty_label : String
  penalty_code : String
  penalty_rate : String
  potential_exclusions : List PotentialExclusionReport
deriving DecidableEq, Repr

/-- One element of `neutral_exclusions` in the report. -/
structure NeutralExclusionReport where
  label : String
  code : String
  rate : String
  requires_choice : Bool
deriving DecidableEq, Repr

/-- The `other_tariffs` dictionary of the report. -/
structure OtherTariffsReport where
  active_penalties : List ActivePenaltyReport
  excluded_penalties : List ExcludedPenaltyReport
  neutral_exclusions : List NeutralExclusionReport
  message : Option (List String)
deriving DecidableEq, Repr

/-- `ReportBuilder._build_other_tariffs`. -/
def buildOtherTariffs (penalties : List TRecord)
    (excludedPenalties : List (String × Entry)) (neutralExclusions : List TRecord) :
    OtherTariffsReport :=
  if penalties = [] ∧ excludedPenalties = [] ∧ neutralExclusions = [] then
    { active_penalties := []
      excluded_penalties := []
      neutral_exclusions := []
      message := some ["No other tariffs (e.g., Section 301, IEEPA) found matching your criteria."] }
  else
    { active_penalties := penalties.map (fun code =>
        { label := code.label, code := code.code, rate := code.rateDescription })
      excluded_penalties := excludedPenalties.map (fun kv =>
        { penalty_label := kv.2.penalty.label
          penalty_code := kv.1
          penalty_rate := kv.2.penalty.rateDescription
          potential_exclusions := kv.2.exclusions.map (fun ex =>
            { label := ex.label, code := ex.code, rate := ex.rateDescription,
              requires_choice := ex.requiresUserChoice }) })
      neutral_exclusions := neutralExclusions.map (fun code =>
        { label := code.label, code := code.code, rate := code.rateDescription,
          requires_choice := code.requiresUserChoice })
      message := none }

/-- The full report dictionary. -/
structure ReportResults where
  primary_info : PrimaryInfoReport
  special_programs : SpecialProgramsReport
  other_tariffs : OtherTariffsReport
deriving DecidableEq, Repr

/-- `ReportBuilder.generate_report_data` on a successful analysis. -/
def generateReportData (analysis : Analysis) (country : String) : ReportResults :=
  { primary_info := buildPrimaryInfo analysis.primary
    special_programs := buildSpecialPrograms analysis.special_programs country
    other_tariffs := buildOtherTariffs analysis.applicable_penalties
      analysis.excluded_penalties analysis.neutral_exclusions }

/-- Longest digit run at the head of a character list, and the remainder. -/
def takeDigits : List Char → List Char × List Char
  | [] => ([], [])
  | c :: cs =>
    if c.isDigit then
      let r := takeDigits cs
      (c :: r.1, r.2)
    else ([], c :: cs)

/-- One greedy match of the regular expression `\d+\.?\d*%?` of
`extract_values` at the head of the input, returning the matched
characters and the remainder; `none` if the head is not a digit. -/
def matchToken (cs : List Char) : Option (List Char × List Char) :=
  let d1 := takeDigits cs
  if d1.1 = [] then none
  else
    let dotRest : List Char × List Char :=
      match d1.2 with
      | '.' :: rs => (['.'], rs)
      | rs => ([], rs)
    let d2 := takeDigits dotRest.2
    let pctRest : List Char × List Char :=
      match d2.2 with
      | '%' :: rs => (['%'], rs)
      | rs => ([], rs)
    some (d1.1 ++ dotRest.1 ++ d2.1 ++ pctRest.1, pctRest.2)

/-- The scan of `re.findall`: try a match at each position, restart after
each match, advance one character otherwise.  Every successful match
consumes at least one character, so an initial fuel equal to the input
length makes the scan total without changing its result. -/
def findTokensAux : Nat → List Char → List (List Char)
  | 0, _ => []
  | _ + 1, [] => []
  | fuel + 1, c :: cs =>
    match matchToken (c :: cs) with
    | some r => r.1 :: findTokensAux fuel r.2
    | none => findTokensAux fuel cs

/-- All non-overlapping matches of `\d+\.?\d*%?`, left to right. -/
def findTokens (l : List Char) : List (List Char) :=
  findTokensAux l.length l

/-- `route.extract_values`: all numeric tokens of a rate description, in
order of appearance, as strings. -/
def extractValues (s : String) : List String :=
  (findTokens s.data).map (fun l => ⟨l⟩)

/-- `s.replace('%', '')` as used on extracted tokens. -/
def stripPercent (s : String) : String :=
  ⟨s.data.filter (fun c => c != '%')⟩

/-- Value of a digit run as a natural number. -/
def digitsToNat (l : List Char) : Nat :=
  l.foldl (fun acc c => 10 * acc + (c.toNat - 48)) 0

/-- Split a character list at its first `'.'`, if any. -/
def splitDot : List Char → List Char × Option (List Char)
  | [] => ([], none)
  | c :: cs =>
    if c = '.' then ([], some cs)
    else
      let r := splitDot cs
      (c :: r.1, r.2)

/-- Python `float(s)` on the plain decimal strings that can reach it here
(`digits`, `digits.`, `digits.digits`, `.digits`); anything else is a
`ValueError`, modelled as `none`. -/
def floatQ? (s : String) : Option ℚ :=
  let r := splitDot s.data
  match r.2 with
  | none =>
    if r.1 ≠ [] ∧ r.1.all Char.isDigit then some (digitsToNat r.1) else none
  | some frac =>
    if (r.1 ≠ [] ∨ frac ≠ []) ∧ r.1.all Char.isDigit ∧ frac.all Char.isDigit then
      some ((digitsToNat r.1 : ℚ) + (digitsToNat frac : ℚ) / (10 : ℚ) ^ frac.length)
    else none

/-- One `try: acc += float(v.replace('%', '')) except ValueError: pass`
step of the accumulation loops in `calculate_total_tariff`. -/
def addRate (acc : ℚ) (v : String) : ℚ :=
  match floatQ? (stripPercent v) with
  | some x => acc + x
  | none => acc

/-- One element of the `penalties` list assembled by `get_data`. -/
structure PenaltyAgg where
  label : String
  code : String
  rate_values : List String
deriving DecidableEq, Repr

/-- One element of the `excluded_penalties` / `potential_exclusions` lists
assembled by `get_data`. -/
structure ExclAgg where
  code : String
  rate_values : List String
  label : String
deriving DecidableEq, Repr

/-- The dictionary returned by `get_data` in `route.py`. -/
structure TariffData where
  basic_rate : String
  penalties : List PenaltyAgg
  excluded_penalties : List ExclAgg
  potential_exclusions : List ExclAgg
  neutral_exclusions : List String
deriving DecidableEq, Repr

/-- `route.get_data`.  The final `neutral_exclusions` mirrors the source
exactly: the list fetched from the report at the top of the function is
rebound to `[]` before the excluded-penalties loop, and that loop reads
`penalty.get("neutral_exclusions", [])` — a key that the excluded-penalty
report entries built by `_build_other_tariffs` never carry (they have only
`penalty_label`, `penalty_code`, `penalty_rate`, `potential_exclusions`),
so the default `[]` is taken on every iteration and the rebound list stays
empty. -/
def getData (reportResults : ReportResults) : TariffData :=
  let primary_info := reportResults.primary_info
  let special_programs := reportResults.special_programs
  let other_tariffs := reportResults.other_tariffs
  let neutral_exclusions := other_tariffs.neutral_exclusions
  let basic_rate :=
    match special_programs.applicable_programs with
    | [] => primary_info.column_1_rate
    | prog :: _ => prog.rate
  let penalties := other_tariffs.active_penalties.map (fun penalty =>
    { label := penalty.label
      code := penalty.code
      rate_values := extractValues penalty.rate : PenaltyAgg })
  let excluded_penalties := other_tariffs.excluded_penalties.map (fun penalty =>
    { code := penalty.penalty_code
      rate_values := extractValues penalty.penalty_rate
      label := penalty.penalty_label : ExclAgg })
  let potential_exclusions := other_tariffs.excluded_penalties.flatMap (fun penalty =>
    penalty.potential_exclusions.map (fun potential =>
      { code := potential.code
        rate_values := extractValues potential.rate
        label := potential.label : ExclAgg }))
  let neutral_exclusions : List String :=
    other_tariffs.excluded_penalties.flatMap (fun penalty => ([] : List String))
  { basic_rate := basic_rate
    penalties := penalties
    excluded_penalties := excluded_penalties
    potential_exclusions := potential_exclusions
    neutral_exclusions := neutral_exclusions }

/-- The dictionary returned by `calculate_total_tariff` in `route.py`.
`duty_rate` is kept as the rational that the code formats with
`f"{duty_rate:.2f}%"`. -/
structure TotalRateResult where
  duty_rate : ℚ
  total_duties : ℚ
  total_cost : ℚ
deriving DecidableEq, Repr

/-- Python `str.lower()` on the ASCII rate strings handled here. -/
def strLower (s : String) : String :=
  ⟨s.data.map Char.toLower⟩

/-- `route.calculate_total_tariff`.  In the basic-rate branch, tokens
produced by `extract_values` always parse as floats (they match
`\d+\.?\d*`), so `float(values[0].replace('%',''))` cannot raise there;
the `getD 0` default is unreachable.  The Python closure adds
`request.base_cost` for the final total; at its only call site that is the
same value as the `base_cost` parameter, so both are the single `baseCost`
here. -/
def calculateTotalTariff (tariffData : TariffData) (baseCost : ℚ) : TotalRateResult :=
  let basicRateStr := tariffData.basic_rate
  let basicRateValue : ℚ :=
    if strLower basicRateStr = "free" then 0
    else
      match extractValues basicRateStr with
      | [] => 0
      | v :: _ => (floatQ? (stripPercent v)).getD 0
  let totalRate : ℚ := 0 + basicRateValue
  let activeTotalRate : ℚ :=
    tariffData.penalties.foldl
      (fun acc penalty => penalty.rate_values.foldl addRate acc) 0
  let excludedTotalRate : ℚ :=
    tariffData.excluded_penalties.foldl
      (fun acc excluded => excluded.rate_values.foldl addRate acc) 0
  let totalRate : ℚ := tariffData.neutral_exclusions.foldl addRate totalRate
  let dutyRate := totalRate + activeTotalRate + excludedTotalRate
  let totalCost := baseCost * (dutyRate / 100)
  { duty_rate := dutyRate
    total_duties := totalCost
    total_cost := totalCost + baseCost }

theorem checkConditions_loading_none (conditions : List Condition) (transport : String)
    (c : Condition) (hc : c ∈ conditions) (hk : c.fieldKey = some "DATE_OF_LOADING") :
    (checkConditions conditions transport none).1 = false := by
  induction conditions with
  | nil => cases hc
  | cons a rest ih =>
    rcases List.mem_cons.mp hc with rfl | hmem
    · have ha : checkCondition c transport none = (false, []) := by
        simp [checkCondition, hk]
      simp [checkConditions, ha]
    · by_cases hp : (checkCondition a transport none).1 = true
      · simp [checkConditions, hp, ih hmem]
      · simp only [Bool.not_eq_true] at hp
        simp [checkConditions, hp]

/-- C9: a record carrying a `DATE_OF_LOADING` condition is inapplicable
whenever no loading date is supplied, regardless of the condition's
`__typename`. -/
theorem c9_loading_date_required (r : TRecord) (country transport : String)
    (entryDate : Int) (c : Condition) (hc : c ∈ r.applicabilityConditions)
    (hk : c.fieldKey = some "DATE_OF_LOADING") :
    (isCodeApplicable r country transport entryDate none).1 = false := by
  have hcc := checkConditions_loading_none r.applicabilityConditions transport c hc hk
  cases ha : r.effectiveFrom.toDate with
  | none => simp [isCodeApplicable, ha]
  | some f =>
    cases hb : r.effectiveTo.toDate with
    | none => simp [isCodeApplicable, ha, hb]
    | some t =>
      simp only [isCodeApplicable, ha, hb]
      split
      · rfl
      · split
        · rfl
        · simp [hcc]

/-- C7: a snapshot with no `COMMODITY_CODE` record yields the structured
`error` result, with no exception path. -/
theorem c7_missing_primary (rawData : List TRecord) (country transport : String)
    (entryDate : Int) (loadingDate : Option Int)
    (h : ∀ r ∈ rawData, r.type ≠ some "COMMODITY_CODE") :
    analyzeTariffs rawData country transport entryDate loadingDate =
      .error "No primary COMMODITY_CODE found." := by
  have hfind : rawData.find? (fun c => decide (c.type = some "COMMODITY_CODE")) = none := by
    rw [List.find?_eq_none]
    intro x hx
    simp [h x hx]
  simp [analyzeTariffs, hfind]

def tweakTransportCond (g : Condition → Option String) (c : Condition) : Condition :=
  if c.fieldKey = some "MODE_OF_TRANSPORT" then { c with fieldShouldEqual := g c } else c

def tweakRecordTransport (g : Condition → Option String) (r : TRecord) : TRecord :=
  { r with applicabilityConditions := r.applicabilityConditions.map (tweakTransportCond g) }

theorem checkCondition_tweak (g : Condition → Option String) (c : Condition)
    (ld : Option Int) :
    checkCondition (tweakTransportCond g c) "ANY" ld = checkCondition c "ANY" ld := by
  by_cases hk : c.fieldKey = some "MODE_OF_TRANSPORT"
  · simp [tweakTransportCond, hk, checkCondition]
  · simp [tweakTransportCond, hk]

theorem checkConditions_tweak (g : Condition → Option String) (cs : List Condition)
    (ld : Option Int) :
    checkConditions (cs.map (tweakTransportCond g)) "ANY" ld =
      checkConditions cs "ANY" ld := by
  induction cs with
  | nil => rfl
  | cons a rest ih => simp [checkConditions, checkCondition_tweak, ih]

/-- C8: when the shipment transport is `ANY`, rewriting the
`fieldShouldEqual` value of every `MODE_OF_TRANSPORT` condition (by an
arbitrary function `g`) leaves the applicability result unchanged: the
transport condition is never evaluated. -/
theorem c8_transport_any_insensitive (g : Condition → Option String) (r : TRecord)
    (country : String) (entryDate : Int) (loadingDate : Option Int) :
    isCodeApplicable (tweakRecordTransport g r) country "ANY" entryDate loadingDate =
      isCodeApplicable r country "ANY" entryDate loadingDate := by
  simp [isCodeApplicable, tweakRecordTransport, checkConditions_tweak,
    parseApplicabilityWarning]

theorem find?_skip {α : Type} (p : α → Bool) (r : α) (hp : p r = false)
    (l1 l2 : List α) : (l1 ++ r :: l2).find? p = (l1 ++ l2).find? p := by
  induction l1 with
  | nil => simp [List.find?, hp]
  | cons a t ih => cases hpa : p a <;> simp [List.find?, hpa, ih]

theorem filter_skip {α : Type} (p : α → Bool) (r : α) (hp : p r = false)
    (l1 l2 : List α) : (l1 ++ r :: l2).filter p = (l1 ++ l2).filter p := by
  simp [List.filter_append, List.filter_cons, hp]

/-- C4: a record whose `effectiveFrom` or `effectiveTo` is missing or
unparsable is inapplicable (fail-closed), a warning diagnostic is emitted,
nothing is raised, and removing such a (non-primary) record from the
snapshot does not change the analysis of the remaining records. -/
theorem c4_bad_dates_fail_closed (r : TRecord) (country transport : String)
    (entryDate : Int) (loadingDate : Option Int)
    (h : r.effectiveFrom.toDate = none ∨ r.effectiveTo.toDate = none) :
    (isCodeApplicable r country transport entryDate loadingDate).1 = false ∧
    (isCodeApplicable r country transport entryDate loadingDate).2 ≠ [] ∧
    (r.type ≠ some "COMMODITY_CODE" →
      ∀ l1 l2 : List TRecord,
        analyzeTariffs (l1 ++ r :: l2) country transport entryDate loadingDate =
          analyzeTariffs (l1 ++ l2) country transport entryDate loadingDate) := by
  have happ : isCodeApplicable r country transport entryDate loadingDate =
      (false, [parseApplicabilityWarning r]) := by
    rcases h with h | h
    · cases hb : r.effectiveTo.toDate <;> simp [isCodeApplicable, h, hb]
    · cases ha : r.effectiveFrom.toDate <;> simp [isCodeApplicable, h, ha]
  refine ⟨by simp [happ], by simp [happ], ?_⟩
  intro htype l1 l2
  have hfp : (fun c : TRecord => decide (c.type = some "COMMODITY_CODE")) r = false := by
    simp [htype]
  have hop : (fun code : TRecord =>
      decide (code.type ≠ some "COMMODITY_CODE") &&
        (isCodeApplicable code country transport entryDate loadingDate).1) r = false := by
    simp [happ]
  unfold analyzeTariffs
  rw [find?_skip _ r hfp, filter_skip _ r hop]

/-- C5: with parsed effective dates, an entry date strictly outside
`[effectiveFrom, effectiveTo]` makes the record inapplicable, while an
entry date equal to either bound passes the (inclusive) effective-window
check. -/
theorem c5_effective_window (r : TRecord) (country transport : String)
    (entryDate : Int) (loadingDate : Option Int) (f t : Int)
    (hf : r.effectiveFrom = .parsed f) (ht : r.effectiveTo = .parsed t) :
    ((entryDate < f ∨ t < entryDate) →
      (isCodeApplicable r country transport entryDate loadingDate).1 = false) ∧
    ((entryDate = f ∨ entryDate = t) → f ≤ t →
      effectiveWindowOk f t entryDate = true) := by
  constructor
  · intro h
    have hw : effectiveWindowOk f t entryDate = false := by
      simp only [effectiveWindowOk, decide_eq_false_iff_not]
      omega
    simp [isCodeApplicable, hf, ht, DateField.toDate, hw]
  · intro h hft
    simp only [effectiveWindowOk, decide_eq_true_eq]
    omega

/-- A neutral base condition used to build concrete test inputs. -/
def condBase : Condition :=
  { fieldKey := none, typename := none, fieldShouldEqual := none,
    threshold := .missing, lowerBound := .missing, upperBound := .missing }

/-- A neutral base record used to build concrete test inputs: always in
force between days 0 and 100, unrestricted, no conditions. -/
def recBase : TRecord :=
  { type := none, code := "REC", label := "", fullDescription := "",
    rateDescription := "", penaltyRate := none,
    effectiveFrom := .parsed 0, effectiveTo := .parsed 100,
    countriesOfOrigin := [], applicabilityConditions := [],
    excludedByCodes := [], priority := none, requiresUserChoice := false,
    specialRates := [] }

/-- Witness for C5 at a concrete record with window `[0, 100]`. -/
theorem c5_effective_window_witness :
    (isCodeApplicable recBase "US" "ANY" (-1) none).1 = false ∧
    effectiveWindowOk 0 100 0 = true := by
  refine ⟨(c5_effective_window recBase "US" "ANY" (-1) none 0 100 rfl rfl).1 ?_,
    (c5_effective_window recBase "US" "ANY" 0 none 0 100 rfl rfl).2 ?_ ?_⟩
  · exact Or.inl (by decide)
  · exact Or.inl rfl
  · decide

/-- Witness for C7 at a one-record snapshot with no commodity code. -/
theorem c7_missing_primary_witness :
    analyzeTariffs [recBase] "US" "ANY" 0 none =
      .error "No primary COMMODITY_CODE found." :=
  c7_missing_primary [recBase] "US" "ANY" 0 none (by decide)

def c9Cond : Condition :=
  { condBase with
    fieldKey := some "DATE_OF_LOADING"
    typename := some "CustomsTariffLess"
    threshold := .parsed 50 }

def c9Rec : TRecord :=
  { recBase with applicabilityConditions := [c9Cond] }

/-- Witness for C9 at a record with a `Less` loading-date condition and no
loading date supplied. -/
theorem c9_loading_date_required_witness :
    (isCodeApplicable c9Rec "US" "OCEAN" 0 none).1 = false :=
  c9_loading_date_required c9Rec "US" "OCEAN" 0 c9Cond (by decide) rfl

def c4Rec : TRecord :=
  { recBase with code := "BAD", effectiveFrom := .missing }

def c4Other : TRecord :=
  { recBase with code := "OTHER" }

/-- Witness for C4 at a record with a missing `effectiveFrom`. -/
theorem c4_bad_dates_fail_closed_witness :
    (isCodeApplicable c4Rec "US" "ANY" 0 none).1 = false ∧
    (isCodeApplicable c4Rec "US" "ANY" 0 none).2 ≠ [] ∧
    analyzeTariffs [c4Other, c4Rec] "US" "ANY" 0 none =
      analyzeTariffs [c4Other] "US" "ANY" 0 none := by
  have h := c4_bad_dates_fail_closed c4Rec "US" "ANY" 0 none (Or.inl rfl)
  exact ⟨h.1, h.2.1, h.2.2 (by decide) [c4Other] []⟩

/-- The sequence of `excludedByCodes` entries of a penalty that match some
exclusion code, in loop order (the codes the inner loop of
`_process_other_tariffs` adds to `used_exclusion_codes`). -/
def matchedCodesL (exclusionCodes : List String) (l : List (Option String)) : List String :=
  l.filterMap (fun o => o.bind (fun c =>
    if exclusionCodes.contains c then some c else none))

/-- `matchedCodesL` applied to a penalty record. -/
def matchedCodes (exclusionCodes : List String) (p : TRecord) : List String :=
  matchedCodesL exclusionCodes p.excludedByCodes

/-- `is_excluded` as computed for one penalty by the inner loop. -/
def isExcl (exclusionCodes : List String) (p : TRecord) : Bool :=
  !(matchedCodes exclusionCodes p).isEmpty

/-- `matching_exclusions` as collected for one penalty by the inner loop:
for each matched code, every exclusion record sharing that code. -/
def groupOf (exclusions : List TRecord) (exclusionCodes : List String)
    (p : TRecord) : List TRecord :=
  (matchedCodes exclusionCodes p).flatMap
    (fun c => exclusions.filter (fun e => decide (e.code = c)))

theorem matchedCodesL_nil (exclusionCodes : List String) :
    matchedCodesL exclusionCodes [] = [] := rfl

theorem matchedCodesL_cons_none (exclusionCodes : List String)
    (l : List (Option String)) :
    matchedCodesL exclusionCodes (none :: l) = matchedCodesL exclusionCodes l := by
  simp [matchedCodesL]

theorem matchedCodesL_cons_some_pos {exclusionCodes : List String} {c : String}
    (l : List (Option String)) (h : exclusionCodes.contains c = true) :
    matchedCodesL exclusionCodes (some c :: l) = c :: matchedCodesL exclusionCodes l := by
  simp only [matchedCodesL, List.filterMap_cons, Option.bind, h, if_pos]

theorem matchedCodesL_cons_some_neg {exclusionCodes : List String} {c : String}
    (l : List (Option String)) (h : exclusionCodes.contains c = false) :
    matchedCodesL exclusionCodes (some c :: l) = matchedCodesL exclusionCodes l := by
  simp only [matchedCodesL, List.filterMap_cons, Option.bind, h]
  simp

theorem procExcludedBy_foldl (exclusions : List TRecord) (exclusionCodes : List String) :
    ∀ (l : List (Option String)) (b : Bool) (m : List TRecord) (u : List String),
      l.foldl
        (fun acc excludedBy =>
          match excludedBy with
          | some exCode =>
            if exclusionCodes.contains exCode then
              (true, acc.2.1 ++ exclusions.filter (fun e => decide (e.code = exCode)),
               acc.2.2 ++ [exCode])
            else acc
          | none => acc)
        (b, m, u) =
      (b || !(matchedCodesL exclusionCodes l).isEmpty,
       m ++ (matchedCodesL exclusionCodes l).flatMap
         (fun c => exclusions.filter (fun e => decide (e.code = c))),
       u ++ matchedCodesL exclusionCodes l) := by
  intro l
  induction l with
  | nil => intro b m u; simp [matchedCodesL_nil]
  | cons o rest ih =>
    intro b m u
    cases o with
    | none =>
      simp only [List.foldl_cons]
      rw [ih, matchedCodesL_cons_none]
    | some c =>
      by_cases hc : exclusionCodes.contains c = true
      · simp only [List.foldl_cons, hc, if_pos]
        rw [ih, matchedCodesL_cons_some_pos rest hc]
        simp [List.append_assoc]
      · simp only [Bool.not_eq_true] at hc
        simp only [List.foldl_cons, hc]
        rw [ih, matchedCodesL_cons_some_neg rest hc]
        simp

theorem procExcludedBy_eq (exclusions : List TRecord) (exclusionCodes : List String)
    (p : TRecord) :
    procExcludedBy exclusions exclusionCodes p =
      (isExcl exclusionCodes p, groupOf exclusions exclusionCodes p,
       matchedCodes exclusionCodes p) := by
  unfold procExcludedBy
  rw [procExcludedBy_foldl]
  simp [isExcl, groupOf, matchedCodes]

theorem procFold_finals (exclusions : List TRecord) (exclusionCodes : List String) :
    ∀ (ps : List TRecord) (st : ProcState),
      (ps.foldl (procStep exclusions exclusionCodes) st).finals =
        st.finals ++ ps.filter (fun p => !(isExcl exclusionCodes p)) := by
  intro ps
  induction ps with
  | nil => intro st; simp
  | cons p rest ih =>
    intro st
    simp only [List.foldl_cons, List.filter_cons]
    by_cases h : isExcl exclusionCodes p = true
    · rw [ih]
      simp [procStep, procExcludedBy_eq, h]
    · simp only [Bool.not_eq_true] at h
      rw [ih]
      simp [procStep, procExcludedBy_eq, h]

theorem procFold_used (exclusions : List TRecord) (exclusionCodes : List String) :
    ∀ (ps : List TRecord) (st : ProcState),
      (ps.foldl (procStep exclusions exclusionCodes) st).used =
        st.used ++ ps.flatMap (fun p => matchedCodes exclusionCodes p) := by
  intro ps
  induction ps with
  | nil => intro st; simp
  | cons p rest ih =>
    intro st
    simp only [List.foldl_cons, List.flatMap_cons]
    by_cases h : isExcl exclusionCodes p = true
    · rw [ih]
      simp [procStep, procExcludedBy_eq, h, List.append_assoc]
    · simp only [Bool.not_eq_true] at h
      rw [ih]
      simp [procStep, procExcludedBy_eq, h, List.append_assoc]

theorem mem_dictInsert {V : Type} {k : String} {v : V} {l : List (String × V)}
    {x : String × V} (h : x ∈ dictInsert k v l) : x = (k, v) ∨ x ∈ l := by
  induction l with
  | nil => simpa [dictInsert] using h
  | cons kv rest ih =>
    by_cases hk : kv.1 = k
    · simp only [dictInsert] at h
      rw [if_pos hk] at h
      rcases List.mem_cons.mp h with rfl | hx
      · exact Or.inl rfl
      · exact Or.inr (List.mem_cons_of_mem _ hx)
    · simp only [dictInsert] at h
      rw [if_neg hk] at h
      rcases List.mem_cons.mp h with rfl | hx
      · exact Or.inr (List.mem_cons_self _ _)
      · rcases ih hx with h' | h'
        · exact Or.inl h'
        · exact Or.inr (List.mem_cons_of_mem _ h')

theorem dictLookup_insert_self {V : Type} (k : String) (v : V)
    (l : List (String × V)) : dictLookup k (dictInsert k v l) = some v := by
  induction l with
  | nil => simp [dictInsert, dictLookup]
  | cons kv rest ih =>
    by_cases hk : kv.1 = k
    · simp [dictInsert, hk, dictLookup]
    · simp [dictInsert, hk, dictLookup, ih]

theorem dictLookup_insert_ne {V : Type} (k k' : String) (v : V)
    (l : List (String × V)) (h : k' ≠ k) :
    dictLookup k' (dictInsert k v l) = dictLookup k' l := by
  induction l with
  | nil =>
    simp only [dictInsert, dictLookup]
    rw [if_neg (fun hh => h hh.symm)]
  | cons kv rest ih =>
    by_cases hk : kv.1 = k
    · simp only [dictInsert, hk, if_pos]
      simp only [dictLookup]
      rw [if_neg (fun hh => h hh.symm), if_neg (by rw [hk]; exact fun hh => h hh.symm)]
    · simp only [dictInsert, hk, if_neg, ite_false]
      simp only [dictLookup]
      by_cases hk' : kv.1 = k'
      · simp [hk']
      · simp [hk', ih]

theorem dictLookup_mem {V : Type} {k : String} {l : List (String × V)} {v : V}
    (h : dictLookup k l = some v) : (k, v) ∈ l := by
  induction l with
  | nil => simp [dictLookup] at h
  | cons kv rest ih =>
    by_cases hk : kv.1 = k
    · simp only [dictLookup, hk, if_pos, Option.some.injEq] at h
      subst h
      rw [← hk]
      exact List.mem_cons_self _ _
    · simp only [dictLookup, hk, ite_false] at h
      exact List.mem_cons_of_mem _ (ih h)

theorem mem_keys_dictInsert {V : Type} {a k : String} {v : V}
    {l : List (String × V)} (h : a ∈ (dictInsert k v l).map Prod.fst) :
    a = k ∨ a ∈ l.map Prod.fst := by
  rcases List.mem_map.mp h with ⟨x, hx, rfl⟩
  rcases mem_dictInsert hx with rfl | hx'
  · exact Or.inl rfl
  · exact Or.inr (List.mem_map_of_mem _ hx')

theorem dictInsert_keys_nodup {V : Type} (k : String) (v : V) :
    ∀ l : List (String × V), (l.map Prod.fst).Nodup →
      ((dictInsert k v l).map Prod.fst).Nodup := by
  intro l
  induction l with
  | nil => intro _; simp [dictInsert]
  | cons kv rest ih =>
    intro h
    simp only [List.map_cons, List.nodup_cons] at h
    by_cases hk : kv.1 = k
    · simp only [dictInsert, hk, if_pos, List.map_cons, List.nodup_cons]
      exact ⟨by rw [← hk]; exact h.1, h.2⟩
    · simp only [dictInsert, hk, ite_false, List.map_cons, List.nodup_cons]
      refine ⟨?_, ih h.2⟩
      intro hmem
      rcases mem_keys_dictInsert hmem with rfl | hmem'
      · exact hk rfl
      · exact h.1 hmem'

theorem mem_dictLookup_of_nodup {V : Type} :
    ∀ {l : List (String × V)}, (l.map Prod.fst).Nodup →
      ∀ {k : String} {v : V}, (k, v) ∈ l → dictLookup k l = some v := by
  intro l
  induction l with
  | nil => intro _ k v h; cases h
  | cons kv rest ih =>
    intro h k v hm
    simp only [List.map_cons, List.nodup_cons] at h
    rcases List.mem_cons.mp hm with rfl | hm'
    · simp [dictLookup]
    · have hk : kv.1 ≠ k := by
        intro hh
        exact h.1 (hh ▸ List.mem_map_of_mem Prod.fst hm')
      simp only [dictLookup, hk, ite_false]
      exact ih h.2 hm'

/-- Well-formedness of one entry of the `excluded_penalties` dict: its
penalty comes from the processed list, is genuinely excluded, the key is
the penalty's code, and the group is exactly the matched exclusions. -/
def WfEntry (exclusions : List TRecord) (exclusionCodes : List String)
    (processed : List TRecord) (kv : String × Entry) : Prop :=
  kv.2.penalty ∈ processed ∧
  isExcl exclusionCodes kv.2.penalty = true ∧
  kv.1 = kv.2.penalty.code ∧
  kv.2.exclusions = groupOf exclusions exclusionCodes kv.2.penalty

theorem procFold_wf (exclusions : List TRecord) (exclusionCodes : List String)
    (L : List TRecord) :
    ∀ (ps : List TRecord) (st : ProcState),
      (∀ kv ∈ st.excluded, WfEntry exclusions exclusionCodes L kv) →
      (∀ p ∈ ps, p ∈ L) →
      ∀ kv ∈ (ps.foldl (procStep exclusions exclusionCodes) st).excluded,
        WfEntry exclusions exclusionCodes L kv := by
  intro ps
  induction ps with
  | nil => intro st hst _ kv hkv; exact hst kv hkv
  | cons p rest ih =>
    intro st hst hL kv hkv
    refine ih (procStep exclusions exclusionCodes st p) ?_
      (fun x hx => hL x (List.mem_cons_of_mem _ hx)) kv hkv
    intro kv' hkv'
    by_cases h : isExcl exclusionCodes p = true
    · simp only [procStep, procExcludedBy_eq, h, if_pos] at hkv'
      rcases mem_dictInsert hkv' with rfl | hold
      · exact ⟨hL p (List.mem_cons_self _ _), h, rfl, rfl⟩
      · exact hst kv' hold
    · simp only [Bool.not_eq_true] at h
      simp only [procStep, procExcludedBy_eq, h] at hkv'
      simp at hkv'
      exact hst kv' hkv'

theorem procFold_keys_nodup (exclusions : List TRecord) (exclusionCodes : List String) :
    ∀ (ps : List TRecord) (st : ProcState),
      (st.excluded.map Prod.fst).Nodup →
      (((ps.foldl (procStep exclusions exclusionCodes) st).excluded).map Prod.fst).Nodup := by
  intro ps
  induction ps with
  | nil => intro st h; exact h
  | cons p rest ih =>
    intro st h
    refine ih _ ?_
    by_cases hx : isExcl exclusionCodes p = true
    · simp only [procStep, procExcludedBy_eq, hx, if_pos]
      exact dictInsert_keys_nodup _ _ _ h
    · simp only [Bool.not_eq_true] at hx
      simp only [procStep, procExcludedBy_eq, hx]
      simpa using h

theorem procFold_lookup_preserved (exclusions : List TRecord)
    (exclusionCodes : List String) :
    ∀ (ps : List TRecord) (st : ProcState) (k : String),
      (∀ x ∈ ps, x.code ≠ k) →
      dictLookup k ((ps.foldl (procStep exclusions exclusionCodes) st).excluded) =
        dictLookup k st.excluded := by
  intro ps
  induction ps with
  | nil => intro st k _; rfl
  | cons p rest ih =>
    intro st k hk
    rw [List.foldl_cons, ih _ k (fun x hx => hk x (List.mem_cons_of_mem _ hx))]
    by_cases hx : isExcl exclusionCodes p = true
    · simp only [procStep, procExcludedBy_eq, hx, if_pos]
      exact dictLookup_insert_ne _ _ _ _
        (fun hh => hk p (List.mem_cons_self _ _) hh.symm)
    · simp only [Bool.not_eq_true] at hx
      simp only [procStep, procExcludedBy_eq, hx]
      simp

theorem procFold_lookup_last (exclusions : List TRecord) (exclusionCodes : List String)
    (A B : List TRecord) (p : TRecord) (st : ProcState)
    (hB : ∀ x ∈ B, x.code ≠ p.code) (hex : isExcl exclusionCodes p = true) :
    dictLookup p.code
        (((A ++ p :: B).foldl (procStep exclusions exclusionCodes) st).excluded) =
      some ⟨p, groupOf exclusions exclusionCodes p⟩ := by
  rw [List.foldl_append, List.foldl_cons,
    procFold_lookup_preserved exclusions exclusionCodes B _ p.code hB]
  simp only [procStep, procExcludedBy_eq, hex, if_pos]
  exact dictLookup_insert_self _ _ _

/-- The multiset of codes added to `used_exclusion_codes` over a whole run
of `_process_other_tariffs`. -/
def usedCodesOf (tariffs : List TRecord) : List String :=
  (penaltiesOf tariffs).flatMap (fun p => matchedCodes (exclusionCodesOf tariffs) p)

theorem processOtherTariffs_applicable (tariffs : List TRecord) :
    (processOtherTariffs tariffs).applicablePenalties =
      (penaltiesOf tariffs).filter
        (fun p => !(isExcl (exclusionCodesOf tariffs) p)) := by
  simp only [processOtherTariffs]
  rw [procFold_finals]
  rfl

theorem processOtherTariffs_neutral (tariffs : List TRecord) :
    (processOtherTariffs tariffs).neutralExclusions =
      (exclusionsOf tariffs).filter
        (fun e => !((usedCodesOf tariffs).contains e.code)) := by
  simp only [processOtherTariffs]
  rw [procFold_used]
  rfl

theorem processOtherTariffs_excluded_wf (tariffs : List TRecord) :
    ∀ kv ∈ (processOtherTariffs tariffs).excludedPenalties,
      WfEntry (exclusionsOf tariffs) (exclusionCodesOf tariffs)
        (penaltiesOf tariffs) kv := by
  simp only [processOtherTariffs]
  exact procFold_wf _ _ _ _ _ (fun kv hkv => by cases hkv) (fun p hp => hp)

theorem processOtherTariffs_keys_nodup (tariffs : List TRecord) :
    (((processOtherTariffs tariffs).excludedPenalties).map Prod.fst).Nodup := by
  simp only [processOtherTariffs]
  exact procFold_keys_nodup _ _ _ _ (by simp)

theorem processOtherTariffs_lookup_last (tariffs : List TRecord)
    (A B : List TRecord) (p : TRecord)
    (hps : penaltiesOf tariffs = A ++ p :: B)
    (hB : ∀ x ∈ B, x.code ≠ p.code)
    (hex : isExcl (exclusionCodesOf tariffs) p = true) :
    dictLookup p.code (processOtherTariffs tariffs).excludedPenalties =
      some ⟨p, groupOf (exclusionsOf tariffs) (exclusionCodesOf tariffs) p⟩ := by
  simp only [processOtherTariffs]
  rw [hps]
  exact procFold_lookup_last _ _ A B p _ hB hex

theorem mem_exclusionCodes (tariffs : List TRecord) (c : String) :
    (exclusionCodesOf tariffs).contains c = true ↔
      ∃ e ∈ exclusionsOf tariffs, e.code = c := by
  simp [exclusionCodesOf, List.contains_iff_exists_mem_beq, List.mem_map]

theorem mem_matchedCodes {exclusionCodes : List String} {p : TRecord} {c : String}
    (h1 : some c ∈ p.excludedByCodes) (h2 : exclusionCodes.contains c = true) :
    c ∈ matchedCodes exclusionCodes p := by
  have h2' : c ∈ exclusionCodes := by simpa using h2
  simp only [matchedCodes, matchedCodesL, List.mem_filterMap]
  exact ⟨some c, h1, by simp [h2']⟩

theorem matchedCodes_sub {exclusionCodes : List String} {p : TRecord} {c : String}
    (h : c ∈ matchedCodes exclusionCodes p) :
    exclusionCodes.contains c = true := by
  simp only [matchedCodes, matchedCodesL, List.mem_filterMap] at h
  obtain ⟨o, ho, hoc⟩ := h
  cases o with
  | none => simp at hoc
  | some c' =>
    simp at hoc
    obtain ⟨hm, rfl⟩ := hoc
    simpa using hm

theorem mem_groupOf {exclusions : List TRecord} {exclusionCodes : List String}
    {p : TRecord} {c : String} {e : TRecord}
    (hc : c ∈ matchedCodes exclusionCodes p) (he : e ∈ exclusions)
    (hec : e.code = c) : e ∈ groupOf exclusions exclusionCodes p := by
  simp only [groupOf, List.mem_flatMap]
  exact ⟨c, hc, by simp [List.mem_filter, he, hec]⟩

theorem groupOf_mem_elim {exclusions : List TRecord} {exclusionCodes : List String}
    {p : TRecord} {e : TRecord} (h : e ∈ groupOf exclusions exclusionCodes p) :
    e ∈ exclusions ∧ e.code ∈ matchedCodes exclusionCodes p := by
  simp only [groupOf, List.mem_flatMap, List.mem_filter] at h
  obtain ⟨c, hc, he, hec⟩ := h
  have : e.code = c := by exact_mod_cast of_decide_eq_true hec
  exact ⟨he, this ▸ hc⟩

theorem mem_penaltiesOf {tariffs : List TRecord} {r : TRecord} :
    r ∈ penaltiesOf tariffs ↔ r ∈ tariffs ∧ 0 < penaltyVal r := by
  simp [penaltiesOf, List.mem_filter]

theorem mem_exclusionsOf {tariffs : List TRecord} {r : TRecord} :
    r ∈ exclusionsOf tariffs ↔ r ∈ tariffs ∧ penaltyVal r = 0 := by
  simp [exclusionsOf, List.mem_filter]

theorem mem_usedCodesOf {tariffs : List TRecord} {c : String} :
    c ∈ usedCodesOf tariffs ↔
      ∃ p ∈ penaltiesOf tariffs, c ∈ matchedCodes (exclusionCodesOf tariffs) p := by
  simp [usedCodesOf, List.mem_flatMap]

/-- C6: for every excluded-penalty entry in the resolver output, each code
of the entry's penalty that matches at least one exclusion record has
*every* exclusion record sharing that code collected into the entry's
exclusion group (not merely the first match); and every code matched by
any penalty is recorded as used, so no exclusion record carrying such a
code ever appears among the neutral exclusions. -/
theorem c6_groups_and_used (tariffs : List TRecord) :
    (∀ kv ∈ (processOtherTariffs tariffs).excludedPenalties,
      ∀ c : String, some c ∈ kv.2.penalty.excludedByCodes →
        (∃ e ∈ exclusionsOf tariffs, e.code = c) →
        ∀ e ∈ exclusionsOf tariffs, e.code = c → e ∈ kv.2.exclusions) ∧
    (∀ p ∈ penaltiesOf tariffs, ∀ c : String, some c ∈ p.excludedByCodes →
      (∃ e ∈ exclusionsOf tariffs, e.code = c) →
      ∀ e : TRecord, e.code = c →
        e ∉ (processOtherTariffs tariffs).neutralExclusions) := by
  constructor
  · intro kv hkv c hcmem hcex e he hec
    have hwf := processOtherTariffs_excluded_wf tariffs kv hkv
    have hcont : (exclusionCodesOf tariffs).contains c = true :=
      (mem_exclusionCodes tariffs c).mpr hcex
    have hmc := mem_matchedCodes hcmem hcont
    rw [hwf.2.2.2]
    exact mem_groupOf hmc he hec
  · intro p hp c hcmem hcex e hec hne
    have hcont : (exclusionCodesOf tariffs).contains c = true :=
      (mem_exclusionCodes tariffs c).mpr hcex
    have hmc := mem_matchedCodes hcmem hcont
    have hused : c ∈ usedCodesOf tariffs := mem_usedCodesOf.mpr ⟨p, hp, hmc⟩
    rw [processOtherTariffs_neutral] at hne
    have hfil := (List.mem_filter.mp hne).2
    rw [hec] at hfil
    simp at hfil
    exact hfil hused

def c6P : TRecord :=
  { recBase with
    code := "P"
    label := "P"
    penaltyRate := some 10
    excludedByCodes := [some "X"] }

def c6E1 : TRecord :=
  { recBase with code := "X", label := "E1" }

def c6E2 : TRecord :=
  { recBase with code := "X", label := "E2" }

def c6Input : List TRecord := [c6P, c6E1, c6E2]

/-- Witness for C6: a penalty excluded by code `X` that two exclusion
records share; both land in its group and neither is neutral. -/
theorem c6_groups_and_used_witness :
    c6E2 ∈ (Entry.mk c6P [c6E1, c6E2]).exclusions ∧
    c6E1 ∉ (processOtherTariffs c6Input).neutralExclusions := by
  have h := c6_groups_and_used c6Input
  refine ⟨h.1 ("P", Entry.mk c6P [c6E1, c6E2]) (by decide) "X" (by decide)
    (by decide) c6E2 (by decide) (by decide), ?_⟩
  exact h.2 c6P (by decide) "X" (by decide) (by decide) c6E1 (by decide)

/-- Membership of a record in the `applicable_penalties` bucket. -/
def inActiveBucket (r : TRecord) (out : ProcResult) : Prop :=
  r ∈ out.applicablePenalties

/-- Membership of a record in the `excluded_penalties` bucket: it occurs in
some entry, either as the entry's penalty or in its exclusion group. -/
def inExcludedBucket (r : TRecord) (out : ProcResult) : Prop :=
  ∃ kv ∈ out.excludedPenalties, r = kv.2.penalty ∨ r ∈ kv.2.exclusions

/-- Membership of a record in the `neutral_exclusions` bucket. -/
def inNeutralBucket (r : TRecord) (out : ProcResult) : Prop :=
  r ∈ out.neutralExclusions

instance (r : TRecord) (out : ProcResult) : Decidable (inActiveBucket r out) := by
  unfold inActiveBucket; infer_instance

instance (r : TRecord) (out : ProcResult) : Decidable (inExcludedBucket r out) := by
  unfold inExcludedBucket; infer_instance

instance (r : TRecord) (out : ProcResult) : Decidable (inNeutralBucket r out) := by
  unfold inNeutralBucket; infer_instance

/-- The record sits in exactly one of the three resolver buckets. -/
def exactlyOneBucket (r : TRecord) (out : ProcResult) : Prop :=
  (inActiveBucket r out ∨ inExcludedBucket r out ∨ inNeutralBucket r out) ∧
  ¬ (inActiveBucket r out ∧ inExcludedBucket r out) ∧
  ¬ (inActiveBucket r out ∧ inNeutralBucket r out) ∧
  ¬ (inExcludedBucket r out ∧ inNeutralBucket r out)

instance (r : TRecord) (out : ProcResult) : Decidable (exactlyOneBucket r out) := by
  unfold exactlyOneBucket; infer_instance

theorem isExcl_of_mem_matched {exclusionCodes : List String} {p : TRecord}
    {c : String} (h : c ∈ matchedCodes exclusionCodes p) :
    isExcl exclusionCodes p = true := by
  cases hmc : matchedCodes exclusionCodes p with
  | nil => rw [hmc] at h; cases h
  | cons a l => simp [isExcl, hmc]

theorem penaltiesOf_codes_nodup {tariffs : List TRecord}
    (h : (tariffs.map TRecord.code).Nodup) :
    ((penaltiesOf tariffs).map TRecord.code).Nodup :=
  List.Nodup.sublist (List.Sublist.map _ (List.filter_sublist _)) h

theorem exists_decomp_nodup {l : List TRecord} {r : TRecord}
    (hm : r ∈ l) (h : (l.map TRecord.code).Nodup) :
    ∃ A B, l = A ++ r :: B ∧ ∀ x ∈ B, x.code ≠ r.code := by
  obtain ⟨A, B, rfl⟩ := List.append_of_mem hm
  refine ⟨A, B, rfl, ?_⟩
  intro x hx hxc
  rw [List.map_append, List.map_cons] at h
  have h2 := (List.nodup_append.mp h).2.1
  have h3 := (List.nodup_cons.mp h2).1
  exact h3 (hxc ▸ List.mem_map_of_mem TRecord.code hx)

theorem inActiveBucket_elim {tariffs : List TRecord} {x : TRecord}
    (hx : inActiveBucket x (processOtherTariffs tariffs)) :
    x ∈ penaltiesOf tariffs ∧ isExcl (exclusionCodesOf tariffs) x = false := by
  rw [inActiveBucket, processOtherTariffs_applicable] at hx
  have h := List.mem_filter.mp hx
  exact ⟨h.1, by simpa using h.2⟩

theorem inNeutralBucket_elim {tariffs : List TRecord} {x : TRecord}
    (hx : inNeutralBucket x (processOtherTariffs tariffs)) :
    x ∈ exclusionsOf tariffs ∧ x.code ∉ usedCodesOf tariffs := by
  rw [inNeutralBucket, processOtherTariffs_neutral] at hx
  have h := List.mem_filter.mp hx
  refine ⟨h.1, ?_⟩
  have h2 := h.2
  simp at h2
  exact h2

theorem inExcludedBucket_elim {tariffs : List TRecord} {x : TRecord}
    (hx : inExcludedBucket x (processOtherTariffs tariffs)) :
    (x ∈ penaltiesOf tariffs ∧ isExcl (exclusionCodesOf tariffs) x = true) ∨
    (x ∈ exclusionsOf tariffs ∧ x.code ∈ usedCodesOf tariffs) := by
  obtain ⟨kv, hkv, hor⟩ := hx
  have hwf := processOtherTariffs_excluded_wf tariffs kv hkv
  rcases hor with heq | hgrp
  · left
    rw [heq]
    exact ⟨hwf.1, hwf.2.1⟩
  · right
    rw [hwf.2.2.2] at hgrp
    obtain ⟨hex, hmc⟩ := groupOf_mem_elim hgrp
    exact ⟨hex, mem_usedCodesOf.mpr ⟨kv.2.penalty, hwf.1, hmc⟩⟩

def c2P1 : TRecord :=
  { recBase with
    code := "A"
    label := "P1"
    penaltyRate := some 5
    excludedByCodes := [some "X"] }

def c2P2 : TRecord :=
  { recBase with
    code := "A"
    label := "P2"
    penaltyRate := some 5
    excludedByCodes := [some "X"] }

def c2E : TRecord :=
  { recBase with code := "X", label := "E" }

def c2N : TRecord :=
  { recBase with code := "B", label := "N", penaltyRate := some (-1) }

def c2Input : List TRecord := [c2P1, c2P2, c2E, c2N]

/-- C2 counterexample: on input `[c2P1, c2P2, c2E, c2N]` the three buckets
do not cover every record.  `c2N` (penalty rate `-1`, neither `> 0` nor
`== 0`) lands in no bucket at all, and `c2P1` (an excluded penalty whose
code `"A"` is shared with the later excluded penalty `c2P2`) is
overwritten in the keyed dict and also lands in no bucket. -/
theorem c2_partition_counterexample :
    (c2P1 ∈ c2Input ∧ c2N ∈ c2Input) ∧
    ¬ exactlyOneBucket c2P1 (processOtherTariffs c2Input) ∧
    ¬ exactlyOneBucket c2N (processOtherTariffs c2Input) := by
  decide

/-- C2 (amended): if every record's penalty rate (defaulting to `0` when
absent) is nonnegative and the records carry pairwise-distinct codes, then
the three resolver buckets cover every input record exactly once: each
record lies in exactly one of active penalties, excluded-penalty entries
(as the entry's penalty or inside its exclusion group), and neutral
exclusions. -/
theorem c2_buckets_partition (tariffs : List TRecord)
    (h1 : ∀ r ∈ tariffs, 0 ≤ penaltyVal r)
    (h2 : (tariffs.map TRecord.code).Nodup) :
    ∀ r ∈ tariffs, exactlyOneBucket r (processOtherTariffs tariffs) := by
  intro r hr
  have hpn : ((penaltiesOf tariffs).map TRecord.code).Nodup :=
    penaltiesOf_codes_nodup h2
  rcases lt_or_eq_of_le (h1 r hr) with hv | hv
  · have hrp : r ∈ penaltiesOf tariffs := mem_penaltiesOf.mpr ⟨hr, hv⟩
    have hnotex : r ∉ exclusionsOf tariffs := by
      intro hcon
      have hz := (mem_exclusionsOf.mp hcon).2
      rw [hz] at hv
      exact lt_irrefl 0 hv
    by_cases hxe : isExcl (exclusionCodesOf tariffs) r = true
    · obtain ⟨A, B, hAB, hB⟩ := exists_decomp_nodup hrp hpn
      have hlook := processOtherTariffs_lookup_last tariffs A B r hAB hB hxe
      have hmem := dictLookup_mem hlook
      have hin : inExcludedBucket r (processOtherTariffs tariffs) :=
        ⟨(r.code, ⟨r, groupOf (exclusionsOf tariffs) (exclusionCodesOf tariffs) r⟩),
          hmem, Or.inl rfl⟩
      have hnact : ¬ inActiveBucket r (processOtherTariffs tariffs) := by
        intro hcon
        rw [(inActiveBucket_elim hcon).2] at hxe
        cases hxe
      have hnneu : ¬ inNeutralBucket r (processOtherTariffs tariffs) := by
        intro hcon
        exact hnotex (inNeutralBucket_elim hcon).1
      exact ⟨Or.inr (Or.inl hin), fun h => hnact h.1, fun h => hnact h.1,
        fun h => hnneu h.2⟩
    · have hxe' : isExcl (exclusionCodesOf tariffs) r = false := by
        simpa using hxe
      have hin : inActiveBucket r (processOtherTariffs tariffs) := by
        rw [inActiveBucket, processOtherTariffs_applicable]
        exact List.mem_filter.mpr ⟨hrp, by simp [hxe']⟩
      have hnex : ¬ inExcludedBucket r (processOtherTariffs tariffs) := by
        intro hcon
        rcases inExcludedBucket_elim hcon with ⟨_, hc⟩ | ⟨hc, _⟩
        · rw [hxe'] at hc
          cases hc
        · exact hnotex hc
      have hnneu : ¬ inNeutralBucket r (processOtherTariffs tariffs) := by
        intro hcon
        exact hnotex (inNeutralBucket_elim hcon).1
      exact ⟨Or.inl hin, fun h => hnex h.2, fun h => hnneu h.2, fun h => hnex h.1⟩
  · have hre : r ∈ exclusionsOf tariffs := mem_exclusionsOf.mpr ⟨hr, hv.symm⟩
    have hnotp : r ∉ penaltiesOf tariffs := by
      intro hcon
      have hp := (mem_penaltiesOf.mp hcon).2
      rw [← hv] at hp
      exact lt_irrefl 0 hp
    have hnact : ¬ inActiveBucket r (processOtherTariffs tariffs) := by
      intro hcon
      exact hnotp (inActiveBucket_elim hcon).1
    by_cases hcu : r.code ∈ usedCodesOf tariffs
    · obtain ⟨p, hp, hmc⟩ := mem_usedCodesOf.mp hcu
      have hexp : isExcl (exclusionCodesOf tariffs) p = true := isExcl_of_mem_matched hmc
      obtain ⟨A, B, hAB, hB⟩ := exists_decomp_nodup hp hpn
      have hlook := processOtherTariffs_lookup_last tariffs A B p hAB hB hexp
      have hmem := dictLookup_mem hlook
      have hin : inExcludedBucket r (processOtherTariffs tariffs) :=
        ⟨(p.code, ⟨p, groupOf (exclusionsOf tariffs) (exclusionCodesOf tariffs) p⟩),
          hmem, Or.inr (mem_groupOf hmc hre rfl)⟩
      have hnneu : ¬ inNeutralBucket r (processOtherTariffs tariffs) := by
        intro hcon
        exact (inNeutralBucket_elim hcon).2 hcu
      exact ⟨Or.inr (Or.inl hin), fun h => hnact h.1, fun h => hnact h.1,
        fun h => hnneu h.2⟩
    · have hin : inNeutralBucket r (processOtherTariffs tariffs) := by
        rw [inNeutralBucket, processOtherTariffs_neutral]
        refine List.mem_filter.mpr ⟨hre, ?_⟩
        simpa using hcu
      have hnex : ¬ inExcludedBucket r (processOtherTariffs tariffs) := by
        intro hcon
        rcases inExcludedBucket_elim hcon with ⟨hc, _⟩ | ⟨_, hc⟩
        · exact hnotp hc
        · exact hcu hc
      exact ⟨Or.inr (Or.inr hin), fun h => hnact h.1, fun h => hnact h.1,
        fun h => hnex h.1⟩

def c2WP : TRecord :=
  { recBase with
    code := "WP"
    penaltyRate := some 7
    excludedByCodes := [some "WX"] }

def c2WE : TRecord :=
  { recBase with code := "WX" }

def c2WInput : List TRecord := [c2WP, c2WE]

/-- Witness for the amended C2 at a two-record input with distinct codes
and nonnegative penalty rates. -/
theorem c2_buckets_partition_witness :
    exactlyOneBucket c2WP (processOtherTariffs c2WInput) :=
  c2_buckets_partition c2WInput (by decide) (by decide) c2WP (by decide)

/-- C10: when two distinct penalty records share a code and both are
marked excluded (and no later penalty reuses that code), the keyed
`excluded_penalties` dict retains only the later record's entry, and the
earlier excluded penalty is absent from all three buckets. -/
theorem c10_duplicate_code_overwrite (tariffs : List TRecord) (p q : TRecord)
    (A B C : List TRecord)
    (hps : penaltiesOf tariffs = A ++ p :: (B ++ q :: C))
    (hcode : p.code = q.code) (hne : p ≠ q)
    (hep : isExcl (exclusionCodesOf tariffs) p = true)
    (heq : isExcl (exclusionCodesOf tariffs) q = true)
    (hC : ∀ x ∈ C, x.code ≠ q.code) :
    dictLookup p.code (processOtherTariffs tariffs).excludedPenalties =
      some ⟨q, groupOf (exclusionsOf tariffs) (exclusionCodesOf tariffs) q⟩ ∧
    ¬ inActiveBucket p (processOtherTariffs tariffs) ∧
    ¬ inExcludedBucket p (processOtherTariffs tariffs) ∧
    ¬ inNeutralBucket p (processOtherTariffs tariffs) := by
  have hps' : penaltiesOf tariffs = (A ++ p :: B) ++ q :: C := by
    rw [hps]
    simp
  have hlook := processOtherTariffs_lookup_last tariffs (A ++ p :: B) C q hps' hC heq
  have hlookp : dictLookup p.code (processOtherTariffs tariffs).excludedPenalties =
      some ⟨q, groupOf (exclusionsOf tariffs) (exclusionCodesOf tariffs) q⟩ := by
    rw [hcode]
    exact hlook
  have hpp : p ∈ penaltiesOf tariffs := by
    rw [hps]
    simp
  have hv : 0 < penaltyVal p := (mem_penaltiesOf.mp hpp).2
  refine ⟨hlookp, ?_, ?_, ?_⟩
  · intro hcon
    rw [(inActiveBucket_elim hcon).2] at hep
    cases hep
  · intro hcon
    obtain ⟨⟨k, ent⟩, hkv, hor⟩ := hcon
    have hwf := processOtherTariffs_excluded_wf tariffs (k, ent) hkv
    rcases hor with heqp | hgrp
    · have hkey : k = p.code := by
        rw [heqp]
        exact hwf.2.2.1
      have hl := mem_dictLookup_of_nodup (processOtherTariffs_keys_nodup tariffs) hkv
      rw [hkey, hlookp] at hl
      have hent := Option.some.inj hl
      apply hne
      rw [heqp, ← hent]
    · rw [hwf.2.2.2] at hgrp
      have hex := (groupOf_mem_elim hgrp).1
      have hz := (mem_exclusionsOf.mp hex).2
      rw [hz] at hv
      exact lt_irrefl 0 hv
  · intro hcon
    have hex := (inNeutralBucket_elim hcon).1
    have hz := (mem_exclusionsOf.mp hex).2
    rw [hz] at hv
    exact lt_irrefl 0 hv

def c10P1 : TRecord :=
  { recBase with
    code := "A"
    label := "Q1"
    penaltyRate := some 5
    excludedByCodes := [some "Y"] }

def c10P2 : TRecord :=
  { recBase with
    code := "A"
    label := "Q2"
    penaltyRate := some 5
    excludedByCodes := [some "Y"] }

def c10E : TRecord :=
  { recBase with code := "Y", label := "E10" }

def c10Input : List TRecord := [c10P1, c10P2, c10E]

/-- Witness for C10 at a three-record input with two same-code excluded
penalties. -/
theorem c10_duplicate_code_overwrite_witness :
    dictLookup c10P1.code (processOtherTariffs c10Input).excludedPenalties =
      some ⟨c10P2, groupOf (exclusionsOf c10Input) (exclusionCodesOf c10Input) c10P2⟩ ∧
    ¬ inActiveBucket c10P1 (processOtherTariffs c10Input) ∧
    ¬ inExcludedBucket c10P1 (processOtherTariffs c10Input) ∧
    ¬ inNeutralBucket c10P1 (processOtherTariffs c10Input) :=
  c10_duplicate_code_overwrite c10Input c10P1 c10P2 [] [] [] (by decide) (by decide)
    (by decide) (by decide) (by decide) (by decide)

theorem foldl_addRate_shift (l : List String) :
    ∀ a b : ℚ, l.foldl addRate (a + b) = a + l.foldl addRate b := by
  induction l with
  | nil => intro a b; rfl
  | cons v rest ih =>
    intro a b
    simp only [List.foldl_cons]
    cases hv : floatQ? (stripPercent v) with
    | none =>
      simp only [addRate, hv]
      exact ih a b
    | some x =>
      simp only [addRate, hv]
      rw [add_assoc]
      exact ih a (b + x)

/-- The basic-rate value selected by `calculate_total_tariff` (special
program or column-1 description; `"free"` is zero; otherwise the first
extracted token). -/
def basicRateValueOf (tariffData : TariffData) : ℚ :=
  if strLower tariffData.basic_rate = "free" then 0
  else
    match extractValues tariffData.basic_rate with
    | [] => 0
    | v :: _ => (floatQ? (stripPercent v)).getD 0

/-- `active_total_rate`: sum of every parsed token of every active
penalty. -/
def activeTotalOf (td : TariffData) : ℚ :=
  td.penalties.foldl (fun acc penalty => penalty.rate_values.foldl addRate acc) 0

/-- `excluded_total_rate`: sum of every parsed token of every excluded
penalty's own rate. -/
def excludedTotalOf (td : TariffData) : ℚ :=
  td.excluded_penalties.foldl (fun acc excluded => excluded.rate_values.foldl addRate acc) 0

/-- The neutral-exclusion tokens folded into the running `total_rate`. -/
def neutralAddedOf (td : TariffData) : ℚ :=
  td.neutral_exclusions.foldl addRate 0

/-- The final value of the running `total_rate` accumulator: the basic-rate
value plus every neutral-exclusion token. -/
def basicAccumOf (td : TariffData) : ℚ :=
  basicRateValueOf td + neutralAddedOf td

def scenarioAPrimary : TRecord :=
  { recBase with
    type := some "COMMODITY_CODE"
    code := "0101.21.00"
    fullDescription := "Live purebred breeding horses"
    rateDescription := "5%" }

def scenarioAAnalysis : Analysis :=
  { primary := scenarioAPrimary
    special_programs := []
    applicable_penalties := []
    excluded_penalties := []
    neutral_exclusions := [] }

/-- C3: the aggregate satisfies `duty_rate = basicRateAccumulator +
activeTotal + excludedTotal`, `dutyAmount = baseCost * dutyRate / 100` and
`totalCost = dutyAmount + baseCost`; and in scenario A — primary column-1
rate `"5%"`, no special programs, no other applicable records, base cost
1000 — the duty rate is `5` (formatted `5.00%`) and the total cost is
`1050`. -/
theorem c3_aggregation_formula :
    (∀ (td : TariffData) (baseCost : ℚ),
      (calculateTotalTariff td baseCost).duty_rate =
        basicAccumOf td + activeTotalOf td + excludedTotalOf td ∧
      (calculateTotalTariff td baseCost).total_duties =
        baseCost * (calculateTotalTariff td baseCost).duty_rate / 100 ∧
      (calculateTotalTariff td baseCost).total_cost =
        (calculateTotalTariff td baseCost).total_duties + baseCost) ∧
    (analyzeTariffs [scenarioAPrimary] "CN" "ANY" 0 none = .ok scenarioAAnalysis ∧
      (calculateTotalTariff (getData (generateReportData scenarioAAnalysis "CN"))
          1000).duty_rate = 5 ∧
      (calculateTotalTariff (getData (generateReportData scenarioAAnalysis "CN"))
          1000).total_cost = 1050) := by
  constructor
  · intro td baseCost
    refine ⟨?_, ?_, ?_⟩
    · simp only [calculateTotalTariff, basicAccumOf, basicRateValueOf, neutralAddedOf,
        activeTotalOf, excludedTotalOf]
      rw [zero_add, ← foldl_addRate_shift, add_zero]
    · simp only [calculateTotalTariff]
      rw [mul_div_assoc]
    · simp only [calculateTotalTariff]
  · have e1 : getData (generateReportData scenarioAAnalysis "CN") =
        ⟨"5%", [], [], [], []⟩ := by decide
    have e2 : extractValues "5%" = ["5%"] := by decide
    have e3 : stripPercent "5%" = "5" := by decide
    have e4 : floatQ? "5" = some 5 := by decide
    have e5 : strLower "5%" ≠ "free" := by decide
    refine ⟨by decide, ?_, ?_⟩
    · rw [e1]
      simp only [calculateTotalTariff, List.foldl_nil, e2, e3, e4, Option.getD_some]
      rw [if_neg e5]
      norm_num
    · rw [e1]
      simp only [calculateTotalTariff, List.foldl_nil, e2, e3, e4, Option.getD_some]
      rw [if_neg e5]
      norm_num

def c1Primary : TRecord :=
  { recBase with
    type := some "COMMODITY_CODE"
    code := "HTS1"
    rateDescription := "5%" }

def c1Neutral : TRecord :=
  { recBase with
    code := "NX"
    label := "Neutral exclusion"
    rateDescription := "7.5%" }

def c1Input : List TRecord := [c1Primary, c1Neutral]

def c1Analysis : Analysis :=
  { primary := c1Primary
    special_programs := []
    applicable_penalties := []
    excluded_penalties := []
    neutral_exclusions := [c1Neutral] }

/-- C1 (code bug): a snapshot whose report carries one neutral exclusion
with rate `"7.5%"` and a primary rate `"5%"`.  The report's
`neutral_exclusions` list is non-empty, but `get_data` hands an *empty*
`neutral_exclusions` list to the aggregation (the fetched list is rebound
to `[]` and refilled from a key absent from every excluded-penalty report
entry), so the final duty rate is `5`, not the `5 + 7.5` the claimed
fold-into-basic-accumulator behaviour would produce. -/
theorem c1_neutral_exclusions_dropped :
    analyzeTariffs c1Input "CN" "ANY" 0 none = .ok c1Analysis ∧
    (generateReportData c1Analysis "CN").other_tariffs.neutral_exclusions ≠ [] ∧
    (getData (generateReportData c1Analysis "CN")).neutral_exclusions = [] ∧
    (calculateTotalTariff (getData (generateReportData c1Analysis "CN"))
        100).duty_rate = 5 ∧
    (calculateTotalTariff (getData (generateReportData c1Analysis "CN"))
        100).duty_rate ≠ 5 + 15 / 2 := by
  have e1 : getData (generateReportData c1Analysis "CN") =
      ⟨"5%", [], [], [], []⟩ := by decide
  have e2 : extractValues "5%" = ["5%"] := by decide
  have e3 : stripPercent "5%" = "5" := by decide
  have e4 : floatQ? "5" = some 5 := by decide
  have e5 : strLower "5%" ≠ "free" := by decide
  have hduty : (calculateTotalTariff (getData (generateReportData c1Analysis "CN"))
      100).duty_rate = 5 := by
    rw [e1]
    simp only [calculateTotalTariff, List.foldl_nil, e2, e3, e4, Option.getD_some]
    rw [if_neg e5]
    norm_num
  refine ⟨by decide, by decide, by decide, hduty, ?_⟩
  rw [hduty]
  norm_num
